import Mathlib

/-!
Shallow embedding of the `azure-ml-serverless` repository:
  * `src/function/function_app.py` — the blob-triggered ingestion/dispatch
    pipeline (`process_blob` and its helpers),
  * `src/api/app.py` — the `/predict` endpoint,
  * `src/api/inference.py` — `predict_texts`.

External effects are passed in explicitly: the inference collaborator is an
oracle function, each `datetime.utcnow()` reading is an input (one reading per
chunk plus one for the manifest, matching the source's `_now()` call sites),
and blob-store writes are returned as an ordered list of (key, value) pairs.
JSON artifact payloads are modelled as an inductive `Artifact` value; the
source serialises each payload with `json.dumps` applied to a fixed-shape
dict, which is injective on these shapes, so value equality models byte
equality of the stored documents.  Python floats that are only carried
through (never computed with) are modelled as rationals.
-/

namespace AzureMLServerless

/-- Whitespace characters recognised by Python's `str.split()` / `str.strip()`
(ASCII subset; the inputs considered here are ASCII). -/
def isPySpace (c : Char) : Bool :=
  c = ' ' || c = '\t' || c = '\n' || c = '\r' || c = '\x0b' || c = '\x0c'

/-- Helper for `pyWords`: accumulates the current (reversed) word. -/
def pyWordsAux : List Char → List Char → List (List Char)
  | [], acc => if acc = [] then [] else [acc.reverse]
  | c :: cs, acc =>
    if isPySpace c then
      if acc = [] then pyWordsAux cs [] else acc.reverse :: pyWordsAux cs []
    else pyWordsAux cs (c :: acc)

/-- Python `s.split()` (no argument): the maximal runs of non-whitespace
characters, in order, with no empty pieces. -/
def pyWords (s : String) : List (List Char) :=
  pyWordsAux s.data []

/-- `" ".join(ws)` on words given as character lists. -/
def joinWords : List (List Char) → List Char
  | [] => []
  | [w] => w
  | w :: ws => w ++ ' ' :: joinWords ws

/-- `" ".join(s.split())` — the whitespace collapsing applied to every row's
text in `process_blob` (function_app.py line 60). -/
def collapseWs (s : String) : String :=
  ⟨joinWords (pyWords s)⟩

/-- Python `s.strip()` restricted to the same whitespace set. -/
def pyStrip (s : String) : String :=
  ⟨(s.data.dropWhile isPySpace).reverse.dropWhile isPySpace |>.reverse⟩

/-- Lowercasing, character by character (ASCII inputs). -/
def pyLower (s : String) : String :=
  ⟨s.data.map Char.toLower⟩

/-- Helper for `splitOnChar`: `acc` is the current piece, reversed. -/
def splitOnCharAux (c : Char) : List Char → List Char → List (List Char)
  | [], acc => [acc.reverse]
  | x :: xs, acc =>
    if x = c then acc.reverse :: splitOnCharAux c xs []
    else splitOnCharAux c xs (x :: acc)

/-- Splitting on a single-character separator (Python `s.split(c)`):
always at least one piece, empty pieces kept. -/
def splitOnChar (c : Char) (s : String) : List String :=
  (splitOnCharAux c s.data []).map fun l => ⟨l⟩

/-- Character membership in a string. -/
def strContains (s : String) (c : Char) : Bool :=
  s.data.contains c

/-- Python `text.splitlines()` for `\n` / `\r\n` line endings (a trailing
newline does not produce a final empty line; `""` has no lines). -/
def pyLines (t : String) : List String :=
  if t = "" then []
  else
    let ps := splitOnChar '\n' t
    let ps := if ps.getLast? = some "" then ps.dropLast else ps
    ps.map (fun l => ⟨l.data.reverse.dropWhile (· = '\r') |>.reverse⟩)

/-- One `csv.reader` record for a quote-free line: an empty line gives the
empty record (which `DictReader` skips), otherwise the fields split on the
delimiter.  Quoted fields are not modelled (the inputs considered contain no
quote characters). -/
def csvFields (delim : Char) (line : String) : List String :=
  if line = "" then [] else splitOnChar delim line

/-! ## Inference API (`src/api/inference.py`, `src/api/app.py`)

The transformers pipeline is an external collaborator; it is modelled as an
oracle `model : List String → List ModelOut` whose outputs are dicts that may
or may not carry a `label` / `score` entry.  The single `datetime.utcnow()`
reading of `predict_texts` is the explicit input `ts`. -/

/-- One raw output dict of the sentiment pipeline: optional `label` and
`score` entries (`out.get("label", ...)`, `out.get("score", ...)`). -/
structure ModelOut where
  label : Option String
  score : Option ℚ
  deriving Repr, DecidableEq

/-- One result dict of `predict_texts` (inference.py lines 26–31). -/
structure PredOut where
  text : String
  sentiment_label : String
  sentiment_score : ℚ
  processed_at : String
  deriving Repr, DecidableEq

/-- `predict_texts` (inference.py lines 19–32): zip the input texts with the
model's outputs; one timestamp `ts` is taken before the loop and shared by
every result. -/
def predict_texts (model : List String → List ModelOut) (ts : String)
    (texts : List String) : List PredOut :=
  let outputs := model texts
  (texts.zip outputs).map fun p =>
    { text := p.1
      sentiment_label := pyLower (p.2.label.getD "NEUTRAL")
      sentiment_score := p.2.score.getD 0
      processed_at := ts }

/-- One `{id, text}` item of a `/predict` request (app.py `Item`). -/
structure Item where
  id : String
  text : String
  deriving Repr, DecidableEq

/-- One entry of the `/predict` response (app.py lines 28–34). -/
structure RespEntry where
  id : String
  text : String
  sentiment_label : String
  sentiment_score : ℚ
  processed_at : String
  deriving Repr, DecidableEq

/-- The `/predict` handler (app.py lines 21–35): run `predict_texts` on the
items' texts and zip the items with the predictions to attach ids back. -/
def predict (model : List String → List ModelOut) (ts : String)
    (items : List Item) : List RespEntry :=
  let texts := items.map Item.text
  let preds := predict_texts model ts texts
  (items.zip preds).map fun p =>
    { id := p.1.id
      text := p.1.text
      sentiment_label := p.2.sentiment_label
      sentiment_score := p.2.sentiment_score
      processed_at := p.2.processed_at }

/-! ## Delimiter detection (`function_app.py` lines 36–43)

The source calls `csv.Sniffer().sniff(first_line, delimiters=[",",";","\t","|"])`
and falls back to `","` on any exception.  For a single header line that
contains no quote character, the Sniffer's `_guess_delimiter` reduces to:
collect the candidate delimiters occurring in the line; a single candidate
wins outright; with several candidates the first of the Sniffer's preferred
list `[',', '\t', ';', ' ', ':']` that occurs wins (of the candidate set only
`','`, `'\t'`, `';'` are preferred, and two or more present candidates always
include one of them); no candidate at all raises, hence the `","` fallback. -/

/-- The candidate delimiters passed to the Sniffer. -/
def delimCandidates : List Char := [',', ';', '\t', '|']

/-- Delimiter detection of `process_blob` (lines 36–43) on the first line,
for quote-free lines (the Sniffer's quote-based guess is not modelled). -/
def detectDelim (line : String) : Char :=
  let present := delimCandidates.filter (strContains line)
  match present with
  | [] => ','
  | [c] => c
  | _ =>
    if present.contains ',' then ','
    else if present.contains '\t' then '\t'
    else ';'

/-! ## Row parsing (`function_app.py` lines 30–66) -/

/-- `text.lstrip("﻿")` guarded by `startswith` (lines 33–34): all
leading BOM characters are removed. -/
def stripBom (t : String) : String :=
  ⟨t.data.dropWhile (· = '﻿')⟩

/-- Header normalisation `h.strip().lower()` (line 51). -/
def normHeader (h : String) : String :=
  pyLower (pyStrip h)

/-- Last index at which `k` occurs in `l`, if any (Python dict construction
from `zip(fieldnames, row)` lets the *last* duplicate fieldname win, and the
`DictReader` restval fill iterates the fieldnames again in order). -/
def lastIdxOf (k : String) : List String → Option Nat
  | [] => none
  | x :: xs =>
    match lastIdxOf k xs with
    | some j => some (j + 1)
    | none => if x = k then some 0 else none

/-- `row.get(key)` on a `csv.DictReader` record with the given fieldnames:
the value at the last position of `key` among the fieldnames, `none` when the
key is absent or the record is too short there (restval `None`). -/
def rowGet (fieldnames row : List String) (k : String) : Option String :=
  match lastIdxOf k fieldnames with
  | none => none
  | some j => row.get? j

/-- `row.get(key)` where `key` may itself be Python `None` (unresolved
id/text key).  `r.get(None)` yields the restkey entry, which is absent for
records no longer than the header; rows with surplus fields are not modelled
(there the source would crash on `list.split`). -/
def rowGetOpt (fieldnames row : List String) : Option String → Option String
  | none => none
  | some k => rowGet fieldnames row k

/-- Python `a or b` for an optional string `a` (`None` and `""` are falsy). -/
def pyOr (a : Option String) (b : Option String) : Option String :=
  match a with
  | some s => if s = "" then b else some s
  | none => b

/-- Python `a or d` with a string default. -/
def pyOrD (a : Option String) (d : String) : String :=
  match a with
  | some s => if s = "" then d else s
  | none => d

/-- One canonical row `{"id": ..., "text": ...}` (line 62). -/
structure Row where
  id : String
  text : String
  deriving Repr, DecidableEq

/-- The raw text value of one record:
`r.get(text_key) or r.get("comment") or r.get("message") or ""` (line 59). -/
def resolveRawText (fieldnames : List String) (textKey : Option String)
    (r : List String) : String :=
  pyOrD (pyOr (pyOr (rowGetOpt fieldnames r textKey)
    (rowGet fieldnames r "comment")) (rowGet fieldnames r "message")) ""

/-- The row-accumulation loop of `process_blob` (lines 56–62): per record,
resolve the id (positional fallback `str(len(rows)+1)`), resolve the text
through the `text_key` / `"comment"` / `"message"` fallback chain, collapse
whitespace, and keep the record only when the collapsed text is non-empty. -/
def parseRowsStep (fieldnames : List String) (idKey textKey : Option String)
    (acc : List Row) (r : List String) : List Row :=
  let idv := rowGetOpt fieldnames r idKey
  let rid := pyOrD idv (toString (acc.length + 1))
  let tx := collapseWs (resolveRawText fieldnames textKey r)
  if tx = "" then acc else acc ++ [{ id := rid, text := tx }]

/-- All accepted rows, in file order. -/
def parseRows (fieldnames : List String) (idKey textKey : Option String)
    (records : List (List String)) : List Row :=
  records.foldl (parseRowsStep fieldnames idKey textKey) []

/-- `"id" if "id" in headers else ("tweet_id" if "tweet_id" in headers else
None)` (line 52). -/
def resolveIdKey (headers : List String) : Option String :=
  if headers.contains "id" then some "id"
  else if headers.contains "tweet_id" then some "tweet_id" else none

/-- `"text" if "text" in headers else ("tweet" if "tweet" in headers else
None)` (line 53). -/
def resolveTextKey (headers : List String) : Option String :=
  if headers.contains "text" then some "text"
  else if headers.contains "tweet" then some "tweet" else none

/-! ## Chunking and the dispatch loop (`function_app.py` lines 68–107) -/

/-- Fuel-indexed slicing loop; the fuel only makes the recursion structural
and never runs out when it starts at the list's length (see
`chunksFuel_congr`). -/
def chunksFuel (b : Nat) : Nat → List Row → List (List Row)
  | _, [] => []
  | 0, _ :: _ => []
  | fuel + 1, x :: xs => ((x :: xs).take b) :: chunksFuel b fuel ((x :: xs).drop b)

/-- `rows[i:i+b] for i in range(0, len(rows), b)` (lines 71–72).  Python
raises on step `b = 0`; the guard returns `[]` there (the source always runs
with `CHUNK_SIZE ≥ 1`). -/
def chunks (b : Nat) (l : List Row) : List (List Row) :=
  if b = 0 then [] else chunksFuel b l.length l

/-- Outcome of one `session.post` + `raise_for_status` + `resp.json()` for a
batch, as seen by the `try`/`except` of lines 74–84: either the decoded
predictions, or the message `str(e)` of the raised exception. -/
inductive DispatchResult
  | ok (preds : List RespEntry)
  | fail (errMsg : String)
  deriving Repr, DecidableEq

/-- A JSON document written to the output container.  Constructors mirror the
exact dict shapes built in the source. -/
inductive Artifact
  /-- `{"error": ...}` — `_write_meta` on a missing header (line 47). -/
  | metaErr (error : String)
  /-- `{"input_rows": 0, "predictions": [], "note": "no_valid_rows"}`
  (line 65). -/
  | metaEmpty (input_rows : Nat) (predictions : List RespEntry) (note : String)
  /-- `{"chunk_index", "chunk_size", "predictions", "processed_at"}`
  (lines 87–92). -/
  | chunkOk (chunk_index chunk_size : Nat) (predictions : List RespEntry)
      (processed_at : String)
  /-- `{"error": "api_call_failed: ...", "chunk_index", "at"}` (line 80). -/
  | chunkErr (error : String) (chunk_index : Nat) (at_ : String)
  /-- The run manifest (lines 99–105). -/
  | manifest (file : String) (total_rows total_chunks total_predictions : Nat)
      (completed_at : String)
  deriving Repr, DecidableEq

/-- `input_path_name.split("/")[-1]` (lines 115, 119). -/
def baseName (p : String) : String :=
  (splitOnChar '/' p).getLastD ""

/-- Python `f"{n:04d}"`. -/
def pad4 (n : Nat) : String :=
  let s := toString n
  if s.length < 4 then ⟨List.replicate (4 - s.length) '0'⟩ ++ s else s

/-- `_chunk_blob_name` (lines 113–116). -/
def chunkBlobName (p : String) (i : Nat) : String :=
  baseName p ++ "." ++ pad4 i ++ ".json"

/-- `_manifest_blob_name` (lines 118–120). -/
def manifestBlobName (p : String) : String :=
  baseName p ++ ".manifest.json"

/-- The chunk loop of `process_blob` (lines 69–96): one pass over the
batches; every batch — failed or not — writes exactly one artifact and
advances `chunk_idx`; only successes add to `total_preds`.  `post i` is the
dispatch outcome for chunk index `i` and `now i` the `_now()` reading taken
while handling it.  Returns (writes, final `chunk_idx`, final
`total_preds`). -/
def runChunks (post : Nat → DispatchResult) (now : Nat → String) (name : String) :
    List (List Row) → Nat → Nat → List (String × Artifact) × Nat × Nat
  | [], chunkIdx, totalPreds => ([], chunkIdx, totalPreds)
  | batch :: rest, chunkIdx, totalPreds =>
    match post chunkIdx with
    | .fail e =>
      let w := (chunkBlobName name chunkIdx,
        Artifact.chunkErr ("api_call_failed: " ++ e) chunkIdx (now chunkIdx))
      let r := runChunks post now name rest (chunkIdx + 1) totalPreds
      (w :: r.1, r.2)
    | .ok preds =>
      let w := (chunkBlobName name chunkIdx,
        Artifact.chunkOk chunkIdx batch.length preds (now chunkIdx))
      let r := runChunks post now name rest (chunkIdx + 1) (totalPreds + preds.length)
      (w :: r.1, r.2)

/-- The dispatch phase for a non-empty row list (lines 68–107): run the
chunk loop from `chunk_idx = 0`, `total_preds = 0`, then append the manifest
write. -/
def runDispatchPhase (chunkSize : Nat) (name : String)
    (post : Nat → DispatchResult) (now : Nat → String) (rows : List Row) :
    List (String × Artifact) :=
  let r := runChunks post now name (chunks chunkSize rows) 0 0
  r.1 ++ [(manifestBlobName name,
    Artifact.manifest name rows.length r.2.1 r.2.2 (now r.2.1))]

/-- `process_blob` (lines 24–107) as a function from the decoded blob text to
the ordered list of `(key, document)` writes.  `name` is `inputblob.name`;
`post` and `now` are the dispatch and clock oracles.  UTF-8 decoding with
`errors="replace"` is total and maps the empty byte string to `""`, so the
model starts from the decoded text. -/
def process_blob (chunkSize : Nat) (name : String) (text0 : String)
    (post : Nat → DispatchResult) (now : Nat → String) :
    List (String × Artifact) :=
  let text := stripBom text0
  let firstLine := (pyLines text).headD ""
  let delim := detectDelim firstLine
  match pyLines text with
  | [] => [(manifestBlobName name, Artifact.metaErr "no_header")]
  | headerLine :: dataLines =>
    let fieldnames := csvFields delim headerLine
    if fieldnames = [] then [(manifestBlobName name, Artifact.metaErr "no_header")]
    else
      let headers := fieldnames.map normHeader
      let idKey := resolveIdKey headers
      let textKey := resolveTextKey headers
      let records := (dataLines.map (csvFields delim)).filter (· ≠ [])
      let rows := parseRows fieldnames idKey textKey records
      if rows = [] then
        [(manifestBlobName name, Artifact.metaEmpty 0 [] "no_valid_rows")]
      else runDispatchPhase chunkSize name post now rows

/-! ## The blob store (`_upload_json`, line 111)

`upload_blob(..., overwrite=True)` replaces the document at the key.  The
store is a map from key to document; a run's writes are applied in order. -/

/-- Apply one overwrite. -/
def storePut (σ : String → Option Artifact) (kv : String × Artifact) :
    String → Option Artifact :=
  fun k => if k = kv.1 then some kv.2 else σ k

/-- Apply a run's writes in order, each a full overwrite. -/
def applyWrites (ws : List (String × Artifact)) (σ : String → Option Artifact) :
    String → Option Artifact :=
  ws.foldl storePut σ

/-! ## Retry machinery (`function_app.py` lines 16–18, 75–76)

`session.post` goes through `HTTPAdapter(max_retries=Retry(total=4,
backoff_factor=0.7, status_forcelist=(429,500,502,503,504)))`.  urllib3's
`Retry.is_retry` first requires the method to be in the default allowed set
`{HEAD, GET, PUT, DELETE, OPTIONS, TRACE}` before consulting
`status_forcelist`; connection errors are retried regardless of method.
Each attempt's outcome is an oracle value: a response with a status, or a
connection-level error. -/

/-- What the network yields on one attempt. -/
inductive AttemptOutcome
  /-- An HTTP response was received. -/
  | response (status : Nat) (preds : List RespEntry)
  /-- A connection-level error (request never reached the server). -/
  | connError (msg : String)
  deriving Repr, DecidableEq

/-- urllib3 `Retry.DEFAULT_ALLOWED_METHODS`. -/
def allowedMethodsDefault : List String :=
  ["HEAD", "GET", "PUT", "DELETE", "OPTIONS", "TRACE"]

/-- The `status_forcelist` of line 17. -/
def statusForcelist : List Nat := [429, 500, 502, 503, 504]

/-- urllib3 `Retry.is_retry(method, status)` (no `Retry-After` header): the
method gate comes first, then the forcelist. -/
def isRetryStatus (method : String) (status : Nat) : Bool :=
  allowedMethodsDefault.contains method && statusForcelist.contains status

/-- The retry loop for one `session.post(...)` + `resp.raise_for_status()`:
`attempt i` is the outcome of the `i`-th wire attempt, `t` the remaining
`total` budget (urllib3 raises `MaxRetryError` when it would go below 0).
A response whose status is not retried is returned to `requests`, where
`raise_for_status` raises on status ≥ 400. -/
def sessionPostGo (attempt : Nat → AttemptOutcome) : Nat → Nat →
    Except String (List RespEntry)
  | i, t =>
    match attempt i with
    | .response s preds =>
      if isRetryStatus "POST" s then
        match t with
        | 0 => .error ("too many " ++ toString s ++ " error responses")
        | t' + 1 => sessionPostGo attempt (i + 1) t'
      else if 400 ≤ s then .error ("HTTP " ++ toString s ++ " error")
      else .ok preds
    | .connError m =>
      match t with
      | 0 => .error ("max retries exceeded: " ++ m)
      | t' + 1 => sessionPostGo attempt (i + 1) t'

/-- One dispatch of `process_blob` through the configured session:
`Retry(total=4, ...)` allows the initial attempt plus up to 4 retries. -/
def sessionPost (attempt : Nat → AttemptOutcome) : Except String (List RespEntry) :=
  sessionPostGo attempt 0 4

/-! ## Chunker lemmas -/

theorem chunksFuel_congr (b : Nat) (hb : b ≠ 0) :
    ∀ (fuel fuel' : Nat) (l : List Row), l.length ≤ fuel → l.length ≤ fuel' →
      chunksFuel b fuel l = chunksFuel b fuel' l := by
  intro fuel
  induction fuel with
  | zero =>
    intro fuel' l h _
    have : l = [] := List.eq_nil_of_length_eq_zero (by omega)
    subst this
    cases fuel' <;> rfl
  | succ fuel ih =>
    intro fuel' l h h'
    cases l with
    | nil => cases fuel' <;> rfl
    | cons x xs =>
      cases fuel' with
      | zero => simp at h'
      | succ fuel' =>
        rw [chunksFuel, chunksFuel]
        congr 1
        apply ih
        · simp only [List.length_drop, List.length_cons]
          simp only [List.length_cons] at h
          omega
        · simp only [List.length_drop, List.length_cons]
          simp only [List.length_cons] at h'
          omega

theorem chunks_nil (b : Nat) : chunks b [] = [] := by
  rw [chunks]
  cases b <;> rfl

theorem chunks_cons (b : Nat) (l : List Row) (hb : b ≠ 0) (hl : l ≠ []) :
    chunks b l = l.take b :: chunks b (l.drop b) := by
  cases l with
  | nil => exact absurd rfl hl
  | cons x xs =>
    rw [chunks, chunks, if_neg hb, if_neg hb]
    rw [List.length_cons, chunksFuel]
    congr 1
    apply chunksFuel_congr b hb
    · simp only [List.length_drop, List.length_cons]
      omega
    · exact le_refl _

theorem chunks_flatten (b : Nat) (hb : 0 < b) (l : List Row) :
    (chunks b l).flatten = l := by
  by_cases hl : l = []
  · subst hl; rw [chunks_nil]; rfl
  · rw [chunks_cons b l hb.ne' hl]
    have ih := chunks_flatten b hb (l.drop b)
    simp [List.flatten, ih]
termination_by l.length
decreasing_by
  have : 0 < l.length := List.length_pos.mpr hl
  simp [List.length_drop]; omega

theorem chunks_length (b : Nat) (hb : 0 < b) (l : List Row) :
    (chunks b l).length = (l.length + b - 1) / b := by
  by_cases hl : l = []
  · subst hl; rw [chunks_nil]
    simp only [List.length_nil, List.length]
    exact (Nat.div_eq_of_lt (by omega)).symm
  · rw [chunks_cons b l hb.ne' hl]
    have ih := chunks_length b hb (l.drop b)
    have hn : 0 < l.length := List.length_pos.mpr hl
    have hrhs : l.length + b - 1 = (l.length - 1) + b := by omega
    rw [List.length_cons, ih, List.length_drop, hrhs, Nat.add_div_right _ hb]
    congr 1
    by_cases hbl : b ≤ l.length
    · congr 1; omega
    · rw [Nat.div_eq_of_lt (by omega), Nat.div_eq_of_lt (by omega)]
termination_by l.length
decreasing_by
  have : 0 < l.length := List.length_pos.mpr hl
  simp [List.length_drop]; omega

theorem chunks_dropLast_length (b : Nat) (hb : 0 < b) (l : List Row) :
    ∀ c ∈ (chunks b l).dropLast, c.length = b := by
  by_cases hl : l = []
  · subst hl; rw [chunks_nil]; intro c hc; simp at hc
  · rw [chunks_cons b l hb.ne' hl]
    by_cases hd : l.drop b = []
    · rw [hd, chunks_nil]; intro c hc; simp at hc
    · have hrest : chunks b (l.drop b) ≠ [] := by
        rw [chunks_cons b _ hb.ne' hd]; simp
      rw [List.dropLast_cons_of_ne_nil hrest]
      intro c hc
      rcases List.mem_cons.mp hc with h | h
      · subst h
        have hbl : b < l.length := by
          by_contra hle
          exact hd (List.drop_eq_nil_of_le (by omega))
        simp [List.length_take]; omega
      · exact chunks_dropLast_length b hb (l.drop b) c h
termination_by l.length
decreasing_by
  have : 0 < l.length := List.length_pos.mpr hl
  simp [List.length_drop]; omega

theorem chunks_getLast? (b : Nat) (hb : 0 < b) (l : List Row) (hl : l ≠ []) :
    ∃ c, (chunks b l).getLast? = some c ∧ 1 ≤ c.length ∧ c.length ≤ b := by
  rw [chunks_cons b l hb.ne' hl]
  by_cases hd : l.drop b = []
  · refine ⟨l.take b, ?_, ?_, ?_⟩
    · rw [hd, chunks_nil]; rfl
    · have : 0 < l.length := List.length_pos.mpr hl
      simp [List.length_take]; omega
    · simp [List.length_take]
  · obtain ⟨c, hc, h1, h2⟩ := chunks_getLast? b hb (l.drop b) hd
    refine ⟨c, ?_, h1, h2⟩
    rw [List.getLast?_cons]
    have hrest : chunks b (l.drop b) ≠ [] := by
      rw [chunks_cons b _ hb.ne' hd]; simp
    rw [← hc]
    cases hrc : chunks b (l.drop b) with
    | nil => exact absurd hrc hrest
    | cons x xs => simp [List.getLast?_cons]
termination_by l.length
decreasing_by
  have : 0 < l.length := List.length_pos.mpr hl
  simp [List.length_drop]; omega

/-! ## Dispatch-loop lemmas -/

/-- The single write the chunk loop emits for chunk index `i` of size
`size`, as a function of the dispatch outcome. -/
def chunkWrite (post : Nat → DispatchResult) (now : Nat → String)
    (name : String) (i : Nat) (size : Nat) : String × Artifact :=
  match post i with
  | .fail e =>
    (chunkBlobName name i, Artifact.chunkErr ("api_call_failed: " ++ e) i (now i))
  | .ok preds =>
    (chunkBlobName name i, Artifact.chunkOk i size preds (now i))

/-- Number of predictions batch `i` contributes to `total_preds`: the length
of its prediction list on success, `0` on failure. -/
def predsCount (post : Nat → DispatchResult) (i : Nat) : Nat :=
  match post i with
  | .ok p => p.length
  | .fail _ => 0

/-- `predsCount post c + ... + predsCount post (c + n - 1)`. -/
def sumPreds (post : Nat → DispatchResult) (c : Nat) : Nat → Nat
  | 0 => 0
  | n + 1 => predsCount post c + sumPreds post (c + 1) n

theorem sumPreds_eq_sum_range (post : Nat → DispatchResult) :
    ∀ (n c : Nat), sumPreds post c n = ∑ i ∈ Finset.range n, predsCount post (c + i) := by
  intro n
  induction n with
  | zero => intro c; simp [sumPreds]
  | succ n ih =>
    intro c
    rw [sumPreds, ih (c + 1), Finset.sum_range_succ']
    simp only [Nat.add_zero]
    rw [Nat.add_comm]
    congr 1
    apply Finset.sum_congr rfl
    intro i _
    congr 1
    omega

/-- Closed form of the chunk loop: one write per batch in order, a final
`chunk_idx` advanced once per batch (failures included), and `total_preds`
accumulating only successful batches' prediction counts. -/
theorem runChunks_eq (post : Nat → DispatchResult) (now : Nat → String)
    (name : String) :
    ∀ (bs : List (List Row)) (c t : Nat),
      runChunks post now name bs c t =
        ((List.range bs.length).map
            (fun i => chunkWrite post now name (c + i) (bs.getD i []).length),
          c + bs.length, t + sumPreds post c bs.length) := by
  intro bs
  induction bs with
  | nil => intro c t; simp [runChunks, sumPreds]
  | cons batch rest ih =>
    intro c t
    rw [List.length_cons, List.range_succ_eq_map, List.map_cons, List.map_map]
    have harg : ∀ i : Nat,
        (chunkWrite post now name (c + (i + 1)) (((batch :: rest).getD (i + 1) []).length)) =
        chunkWrite post now name (c + 1 + i) ((rest.getD i []).length) := by
      intro i
      have h1 : c + (i + 1) = c + 1 + i := by omega
      simp [h1, List.getD_cons_succ]
    have hmap : (List.range rest.length).map
          ((fun i => chunkWrite post now name (c + i) (((batch :: rest).getD i []).length)) ∘ Nat.succ) =
        (List.range rest.length).map
          (fun i => chunkWrite post now name (c + 1 + i) ((rest.getD i []).length)) := by
      apply List.map_congr_left
      intro i _
      exact harg i
    cases hpost : post c with
    | fail e =>
      simp only [runChunks, hpost, ih (c + 1) t]
      simp only [hmap, List.getD_cons_zero, Prod.mk.injEq, Nat.add_zero]
      refine ⟨?_, by omega, ?_⟩
      · simp [chunkWrite, hpost]
      · rw [sumPreds]
        simp [predsCount, hpost]
    | ok preds =>
      simp only [runChunks, hpost, ih (c + 1) (t + preds.length)]
      simp only [hmap, List.getD_cons_zero, Prod.mk.injEq, Nat.add_zero]
      refine ⟨?_, by omega, ?_⟩
      · simp [chunkWrite, hpost]
      · rw [sumPreds]
        simp [predsCount, hpost]
        omega

/-! ## Store lemmas -/

/-- The last value written for key `k` in the write list, if any. -/
def lastWrite : List (String × Artifact) → String → Option Artifact
  | [], _ => none
  | kv :: rest, k =>
    match lastWrite rest k with
    | some a => some a
    | none => if k = kv.1 then some kv.2 else none

theorem applyWrites_eq_lastWrite :
    ∀ (ws : List (String × Artifact)) (σ : String → Option Artifact) (k : String),
      applyWrites ws σ k =
        match lastWrite ws k with
        | some a => some a
        | none => σ k := by
  intro ws
  induction ws with
  | nil => intro σ k; rfl
  | cons kv rest ih =>
    intro σ k
    show applyWrites rest (storePut σ kv) k = _
    rw [ih (storePut σ kv) k]
    cases hlw : lastWrite rest k with
    | some a => simp [lastWrite, hlw]
    | none =>
      simp only [lastWrite, hlw, storePut]
      by_cases hk : k = kv.1 <;> simp [hk]

theorem applyWrites_overwrite (ws : List (String × Artifact))
    (σ : String → Option Artifact) :
    applyWrites ws (applyWrites ws σ) = applyWrites ws σ := by
  funext k
  rw [applyWrites_eq_lastWrite, applyWrites_eq_lastWrite]
  cases lastWrite ws k <;> simp

/-! ## Claim theorems -/

theorem string_append_ne_empty_left (s t : String) (hs : s.data ≠ []) :
    s ++ t ≠ "" := by
  intro h
  apply hs
  have hd := congrArg String.data h
  rw [String.data_append] at hd
  exact (List.append_eq_nil.mp hd).1

/-- **C1** — Failure isolation and manifest totals: in the dispatch phase
over `k` batches, if the dispatch of batch `j` fails (after retries) with
message `e`, the run still writes one artifact for every batch at its own
chunk key — successful batches write their Success document — the failed
batch's artifact is a Failure document with a non-empty reason, and the final
manifest write reports `total_chunks = k` (failed batches included) and
`total_predictions` equal to the sum of the successful batches' prediction
counts only. -/
theorem claim_C1_failure_isolation (b : Nat) (name : String)
    (post : Nat → DispatchResult) (now : Nat → String) (rows : List Row)
    (hrows : rows ≠ []) (j : Nat) (e : String)
    (hj : j < (chunks b rows).length) (hfail : post j = .fail e) :
    (runDispatchPhase b name post now rows).length = (chunks b rows).length + 1 ∧
    (∀ i preds, i < (chunks b rows).length → post i = .ok preds →
      (runDispatchPhase b name post now rows).get? i =
        some (chunkBlobName name i,
          Artifact.chunkOk i ((chunks b rows).getD i []).length preds (now i))) ∧
    (runDispatchPhase b name post now rows).get? j =
      some (chunkBlobName name j,
        Artifact.chunkErr ("api_call_failed: " ++ e) j (now j)) ∧
    ("api_call_failed: " ++ e) ≠ "" ∧
    (runDispatchPhase b name post now rows).get? ((chunks b rows).length) =
      some (manifestBlobName name,
        Artifact.manifest name rows.length ((chunks b rows).length)
          (∑ i ∈ Finset.range ((chunks b rows).length), predsCount post i)
          (now ((chunks b rows).length))) := by
  have hrun := runChunks_eq post now name (chunks b rows) 0 0
  have hphase : runDispatchPhase b name post now rows =
      ((List.range (chunks b rows).length).map
        (fun i => chunkWrite post now name i ((chunks b rows).getD i []).length)) ++
      [(manifestBlobName name,
        Artifact.manifest name rows.length ((chunks b rows).length)
          (sumPreds post 0 ((chunks b rows).length))
          (now ((chunks b rows).length)))] := by
    rw [runDispatchPhase, hrun]
    simp only [Nat.zero_add]
  have hlenmap : ((List.range (chunks b rows).length).map
      (fun i => chunkWrite post now name i ((chunks b rows).getD i []).length)).length =
      (chunks b rows).length := by
    rw [List.length_map, List.length_range]
  have hget : ∀ i, i < (chunks b rows).length →
      (runDispatchPhase b name post now rows).get? i =
        some (chunkWrite post now name i ((chunks b rows).getD i []).length) := by
    intro i hi
    rw [hphase, List.get?_append (by rw [hlenmap]; exact hi), List.get?_map,
      List.get?_range hi]
    rfl
  refine ⟨?_, ?_, ?_, ?_, ?_⟩
  · rw [hphase, List.length_append, hlenmap]
    rfl
  · intro i preds hi hpost
    rw [hget i hi]
    simp [chunkWrite, hpost]
  · rw [hget j hj]
    simp [chunkWrite, hfail]
  · exact string_append_ne_empty_left _ _ (by decide)
  · rw [hphase, List.get?_append_right (by rw [hlenmap]), hlenmap]
    simp only [Nat.sub_self, List.get?_cons_zero, Option.some.injEq,
      Prod.mk.injEq, Artifact.manifest.injEq, and_true, true_and]
    rw [sumPreds_eq_sum_range]
    apply Finset.sum_congr rfl
    intro i _
    rw [Nat.zero_add]

/-- Witness for C1: two one-row batches, batch 0 fails, batch 1 succeeds
with one prediction. -/
theorem claim_C1_failure_isolation_witness :
    (runDispatchPhase 1 "input/t.csv"
        (fun i => if i = 0 then DispatchResult.fail "boom"
          else DispatchResult.ok [⟨"2", "b", "positive", 1, "T"⟩])
        (fun _ => "T") [⟨"1", "a"⟩, ⟨"2", "b"⟩]).length =
      (chunks 1 [⟨"1", "a"⟩, ⟨"2", "b"⟩]).length + 1 ∧
    (∀ i preds, i < (chunks 1 [⟨"1", "a"⟩, ⟨"2", "b"⟩]).length →
      (fun i => if i = 0 then DispatchResult.fail "boom"
          else DispatchResult.ok [⟨"2", "b", "positive", 1, "T"⟩]) i =
        DispatchResult.ok preds →
      (runDispatchPhase 1 "input/t.csv"
        (fun i => if i = 0 then DispatchResult.fail "boom"
          else DispatchResult.ok [⟨"2", "b", "positive", 1, "T"⟩])
        (fun _ => "T") [⟨"1", "a"⟩, ⟨"2", "b"⟩]).get? i =
        some (chunkBlobName "input/t.csv" i,
          Artifact.chunkOk i ((chunks 1 [⟨"1", "a"⟩, ⟨"2", "b"⟩]).getD i []).length
            preds "T")) ∧
    (runDispatchPhase 1 "input/t.csv"
        (fun i => if i = 0 then DispatchResult.fail "boom"
          else DispatchResult.ok [⟨"2", "b", "positive", 1, "T"⟩])
        (fun _ => "T") [⟨"1", "a"⟩, ⟨"2", "b"⟩]).get? 0 =
      some (chunkBlobName "input/t.csv" 0,
        Artifact.chunkErr ("api_call_failed: " ++ "boom") 0 "T") ∧
    ("api_call_failed: " ++ "boom") ≠ "" ∧
    (runDispatchPhase 1 "input/t.csv"
        (fun i => if i = 0 then DispatchResult.fail "boom"
          else DispatchResult.ok [⟨"2", "b", "positive", 1, "T"⟩])
        (fun _ => "T") [⟨"1", "a"⟩, ⟨"2", "b"⟩]).get?
        ((chunks 1 [⟨"1", "a"⟩, ⟨"2", "b"⟩]).length) =
      some (manifestBlobName "input/t.csv",
        Artifact.manifest "input/t.csv"
          (([⟨"1", "a"⟩, ⟨"2", "b"⟩] : List Row).length)
          ((chunks 1 [⟨"1", "a"⟩, ⟨"2", "b"⟩]).length)
          (∑ i ∈ Finset.range ((chunks 1 [⟨"1", "a"⟩, ⟨"2", "b"⟩]).length),
            predsCount (fun i => if i = 0 then DispatchResult.fail "boom"
              else DispatchResult.ok [⟨"2", "b", "positive", 1, "T"⟩]) i)
          "T") :=
  claim_C1_failure_isolation 1 "input/t.csv"
    (fun i => if i = 0 then DispatchResult.fail "boom"
      else DispatchResult.ok [⟨"2", "b", "positive", 1, "T"⟩])
    (fun _ => "T") [⟨"1", "a"⟩, ⟨"2", "b"⟩] (by decide) 0 "boom" (by decide) (by decide)

/-- **C2** — Chunker correctness: for every row sequence `l` and batch size
`b > 0`, slicing `rows[i:i+b]` for `i = 0, b, 2b, ...` produces exactly
`⌈n/b⌉` batches, every batch except possibly the last has exactly `b` rows,
the last has between 1 and `b` rows when `n > 0`, and concatenating the
batches in order reproduces the original row sequence exactly. -/
theorem claim_C2_chunker (b : Nat) (hb : 0 < b) (l : List Row) :
    (chunks b l).length = (l.length + b - 1) / b ∧
    (chunks b l).flatten = l ∧
    (∀ c ∈ (chunks b l).dropLast, c.length = b) ∧
    (l ≠ [] → ∃ c, (chunks b l).getLast? = some c ∧
      1 ≤ c.length ∧ c.length ≤ b) :=
  ⟨chunks_length b hb l, chunks_flatten b hb l,
    chunks_dropLast_length b hb l, fun hl => chunks_getLast? b hb l hl⟩

/-- Witness for C2 at `b = 2` on three rows. -/
theorem claim_C2_chunker_witness :
    (chunks 2 [⟨"1", "a"⟩, ⟨"2", "b"⟩, ⟨"3", "c"⟩]).length =
      (([⟨"1", "a"⟩, ⟨"2", "b"⟩, ⟨"3", "c"⟩] : List Row).length + 2 - 1) / 2 ∧
    (chunks 2 [⟨"1", "a"⟩, ⟨"2", "b"⟩, ⟨"3", "c"⟩]).flatten =
      [⟨"1", "a"⟩, ⟨"2", "b"⟩, ⟨"3", "c"⟩] ∧
    (∀ c ∈ (chunks 2 [⟨"1", "a"⟩, ⟨"2", "b"⟩, ⟨"3", "c"⟩]).dropLast,
      c.length = 2) ∧
    (([⟨"1", "a"⟩, ⟨"2", "b"⟩, ⟨"3", "c"⟩] : List Row) ≠ [] →
      ∃ c, (chunks 2 [⟨"1", "a"⟩, ⟨"2", "b"⟩, ⟨"3", "c"⟩]).getLast? = some c ∧
        1 ≤ c.length ∧ c.length ≤ 2) :=
  claim_C2_chunker 2 (by norm_num) [⟨"1", "a"⟩, ⟨"2", "b"⟩, ⟨"3", "c"⟩]

/-- **C3** — Run idempotence: the pipeline is a function of the input text,
the artifact name, and its environment (dispatch outcomes and clock readings,
which are explicit inputs here), so a second run on byte-identical input with
the same artifact name emits the identical list of output keys and documents;
and because every write is a full overwrite, applying the second run's writes
on top of the first run's store leaves the store exactly as after one run —
overwrite, not append. -/
theorem claim_C3_idempotence (b : Nat) (name text : String)
    (post : Nat → DispatchResult) (now : Nat → String)
    (σ : String → Option Artifact) :
    applyWrites (process_blob b name text post now)
        (applyWrites (process_blob b name text post now) σ) =
      applyWrites (process_blob b name text post now) σ :=
  applyWrites_overwrite (process_blob b name text post now) σ

/-- **C8** — Empty-input handling: when the decoded text has no lines (zero
bytes decode to `""`) or its first line yields no header fields, the run
writes exactly one artifact — the `{"error": "no_header"}` document under
`<basename>.manifest.json` — and no per-batch artifacts. -/
theorem claim_C8_empty_input (b : Nat) (name text : String)
    (post : Nat → DispatchResult) (now : Nat → String)
    (h : pyLines (stripBom text) = [] ∨
      csvFields (detectDelim ((pyLines (stripBom text)).headD ""))
        ((pyLines (stripBom text)).headD "") = []) :
    process_blob b name text post now =
      [(manifestBlobName name, Artifact.metaErr "no_header")] := by
  rcases h with h | h
  · simp only [process_blob, h]
  · cases hp : pyLines (stripBom text) with
    | nil => simp only [process_blob, hp]
    | cons hd tl =>
      rw [hp] at h
      simp only [List.headD_cons] at h
      simp only [process_blob, hp, List.headD_cons, h, if_true]

/-- Witness for C8 at the zero-byte input (decoded text `""`). -/
theorem claim_C8_empty_input_witness :
    process_blob 100 "input/empty.csv" "" (fun _ => DispatchResult.ok [])
        (fun _ => "T") =
      [(manifestBlobName "input/empty.csv", Artifact.metaErr "no_header")] :=
  claim_C8_empty_input 100 "input/empty.csv" "" (fun _ => DispatchResult.ok [])
    (fun _ => "T") (Or.inl (by decide))

/-! ## Row-parser lemmas -/

theorem snoc_positional_invariant (acc : List Row) (tx : String)
    (hacc : ∀ k (hk : k < acc.length), (acc.get ⟨k, hk⟩).id = toString (k + 1)) :
    ∀ k (hk : k < (acc ++ [Row.mk (toString (acc.length + 1)) tx]).length),
      ((acc ++ [Row.mk (toString (acc.length + 1)) tx]).get ⟨k, hk⟩).id =
        toString (k + 1) := by
  intro k hk
  rw [List.length_append, List.length_singleton] at hk
  rw [List.get_eq_getElem]
  by_cases hlt : k < acc.length
  · rw [List.getElem_append_left hlt]
    have := hacc k hlt
    rw [List.get_eq_getElem] at this
    exact this
  · have hke : k = acc.length := by omega
    subst hke
    rw [List.getElem_append_right (le_refl _)]
    simp

theorem parseRows_foldl_positional (fns : List String) (textKey : Option String) :
    ∀ (records : List (List String)) (acc : List Row),
      (∀ k (hk : k < acc.length), (acc.get ⟨k, hk⟩).id = toString (k + 1)) →
      ∀ k (hk : k < (records.foldl (parseRowsStep fns none textKey) acc).length),
        ((records.foldl (parseRowsStep fns none textKey) acc).get ⟨k, hk⟩).id =
          toString (k + 1) := by
  intro records
  induction records with
  | nil => intro acc hacc; exact hacc
  | cons r rest ih =>
    intro acc hacc
    rw [List.foldl_cons]
    apply ih
    have hstep : parseRowsStep fns none textKey acc r =
        if collapseWs (resolveRawText fns textKey r) = "" then acc
        else acc ++ [Row.mk (toString (acc.length + 1))
          (collapseWs (resolveRawText fns textKey r))] := rfl
    by_cases htx : collapseWs (resolveRawText fns textKey r) = ""
    · rw [hstep, if_pos htx]
      exact hacc
    · rw [hstep, if_neg htx]
      exact snoc_positional_invariant acc _ hacc

/-- **C5** — Positional id fallback: when no header normalises to `id` or
`tweet_id`, the resolved id key is `None` and the `k`-th accepted row
(0-indexed `k`, so 1-indexed `k+1`) gets id `str(k+1)`; rows discarded for
empty collapsed text do not advance the counter, since the counter is the
length of the accepted list so far. -/
theorem claim_C5_positional_ids (fieldnames : List String)
    (textKey : Option String) (records : List (List String))
    (hid : "id" ∉ fieldnames.map normHeader)
    (htid : "tweet_id" ∉ fieldnames.map normHeader) :
    ∀ k (hk : k < (parseRows fieldnames
        (resolveIdKey (fieldnames.map normHeader)) textKey records).length),
      ((parseRows fieldnames (resolveIdKey (fieldnames.map normHeader))
        textKey records).get ⟨k, hk⟩).id = toString (k + 1) := by
  have hkey : resolveIdKey (fieldnames.map normHeader) = none := by
    rw [resolveIdKey]
    rw [if_neg (by simpa using hid), if_neg (by simpa using htid)]
  rw [hkey, parseRows]
  exact parseRows_foldl_positional fieldnames textKey records []
    (by intro k hk; simp at hk)

/-- Witness for C5: headers `user,text`, three records, the middle one
dropped for whitespace-only text; the accepted rows get ids `1` and `2`. -/
theorem claim_C5_positional_ids_witness :
    ("id" ∉ (["user", "text"].map normHeader)) ∧
    ("tweet_id" ∉ (["user", "text"].map normHeader)) ∧
    ∀ k (hk : k < (parseRows ["user", "text"]
        (resolveIdKey (["user", "text"].map normHeader)) (some "text")
        [["u1", "hello"], ["u2", "   "], ["u3", "world"]]).length),
      ((parseRows ["user", "text"]
        (resolveIdKey (["user", "text"].map normHeader)) (some "text")
        [["u1", "hello"], ["u2", "   "], ["u3", "world"]]).get ⟨k, hk⟩).id =
        toString (k + 1) :=
  ⟨by decide, by decide,
    claim_C5_positional_ids ["user", "text"] (some "text")
      [["u1", "hello"], ["u2", "   "], ["u3", "world"]] (by decide) (by decide)⟩

/-! ## Whitespace-collapsing lemmas -/

/-- No two adjacent characters are both whitespace. -/
def noAdjSpace : List Char → Bool
  | [] => true
  | [_] => true
  | c :: c2 :: rest => (!(isPySpace c && isPySpace c2)) && noAdjSpace (c2 :: rest)

/-- A string is in collapsed form: every whitespace character in it is a
single plain space, whitespace runs have length one, and it neither starts
nor ends with whitespace. -/
def isCollapsedStr (s : String) : Bool :=
  s.data.all (fun c => !isPySpace c || c == ' ') &&
  noAdjSpace s.data &&
  (match s.data with
    | [] => true
    | c :: _ => !isPySpace c) &&
  (match s.data.getLast? with
    | none => true
    | some c => !isPySpace c)

theorem pyWordsAux_words : ∀ (cs acc : List Char),
    (∀ c ∈ acc, isPySpace c = false) →
    ∀ w ∈ pyWordsAux cs acc, w ≠ [] ∧ ∀ c ∈ w, isPySpace c = false := by
  intro cs
  induction cs with
  | nil =>
    intro acc hacc w hw
    rw [pyWordsAux] at hw
    by_cases ha : acc = []
    · simp [ha] at hw
    · rw [if_neg ha] at hw
      simp only [List.mem_singleton] at hw
      subst hw
      refine ⟨by simpa using ha, ?_⟩
      intro c hc
      exact hacc c (List.mem_reverse.mp hc)
  | cons x xs ih =>
    intro acc hacc w hw
    rw [pyWordsAux] at hw
    by_cases hx : isPySpace x
    · rw [if_pos hx] at hw
      by_cases ha : acc = []
      · rw [if_pos ha] at hw
        exact ih [] (by intro c hc; simp at hc) w hw
      · rw [if_neg ha] at hw
        rcases List.mem_cons.mp hw with hw | hw
        · subst hw
          refine ⟨by simpa using ha, ?_⟩
          intro c hc
          exact hacc c (List.mem_reverse.mp hc)
        · exact ih [] (by intro c hc; simp at hc) w hw
    · rw [if_neg hx] at hw
      refine ih (x :: acc) ?_ w hw
      intro c hc
      rcases List.mem_cons.mp hc with hc | hc
      · subst hc; simpa using hx
      · exact hacc c hc

theorem noAdjSpace_cons_of_nonspace (c : Char) (l : List Char)
    (hc : isPySpace c = false) (hl : noAdjSpace l = true) :
    noAdjSpace (c :: l) = true := by
  cases l with
  | nil => rfl
  | cons c2 rest =>
    rw [noAdjSpace]
    simp [hc, hl]

theorem noAdjSpace_append (w rest : List Char)
    (hw : ∀ c ∈ w, isPySpace c = false) (hrest : noAdjSpace rest = true) :
    noAdjSpace (w ++ rest) = true := by
  induction w with
  | nil => simpa
  | cons c w ih =>
    rw [List.cons_append]
    apply noAdjSpace_cons_of_nonspace
    · exact hw c (List.mem_cons_self c w)
    · exact ih fun d hd => hw d (List.mem_cons_of_mem c hd)

theorem joinWords_head_eq (w : List Char) (ws : List (List Char)) (hw : w ≠ []) :
    (joinWords (w :: ws)).head? = w.head? := by
  cases ws with
  | nil => rfl
  | cons w2 ws2 =>
    show (w ++ ' ' :: joinWords (w2 :: ws2)).head? = w.head?
    cases w with
    | nil => exact absurd rfl hw
    | cons c cs => rfl

theorem joinWords_ne_nil (w : List Char) (ws : List (List Char)) (hw : w ≠ []) :
    joinWords (w :: ws) ≠ [] := by
  cases ws with
  | nil => exact hw
  | cons w2 ws2 =>
    show w ++ ' ' :: joinWords (w2 :: ws2) ≠ []
    simp

theorem noAdjSpace_joinWords : ∀ (ws : List (List Char)),
    (∀ w ∈ ws, w ≠ [] ∧ ∀ c ∈ w, isPySpace c = false) →
    noAdjSpace (joinWords ws) = true := by
  intro ws
  induction ws with
  | nil => intro _; rfl
  | cons w ws ih =>
    intro h
    have hw := h w (List.mem_cons_self w ws)
    cases ws with
    | nil =>
      show noAdjSpace w = true
      simpa using noAdjSpace_append w [] hw.2 rfl
    | cons w2 ws2 =>
      show noAdjSpace (w ++ ' ' :: joinWords (w2 :: ws2)) = true
      apply noAdjSpace_append w _ hw.2
      have hw2 := h w2 (List.mem_cons_of_mem w (List.mem_cons_self w2 ws2))
      have hjoin : noAdjSpace (joinWords (w2 :: ws2)) = true :=
        ih fun u hu => h u (List.mem_cons_of_mem w hu)
      cases hshape : joinWords (w2 :: ws2) with
      | nil => rfl
      | cons c2 rest2 =>
        have hc2 : isPySpace c2 = false := by
          have hhead := joinWords_head_eq w2 (ws2) hw2.1
          rw [hshape] at hhead
          simp only [List.head?_cons] at hhead
          cases w2 with
          | nil => exact absurd rfl hw2.1
          | cons d ds =>
            simp only [List.head?_cons, Option.some.injEq] at hhead
            rw [hhead]
            exact hw2.2 d (List.mem_cons_self d ds)
        rw [hshape] at hjoin
        rw [noAdjSpace]
        simp [hc2, hjoin]

theorem joinWords_getLast? : ∀ (ws : List (List Char)),
    (∀ w ∈ ws, w ≠ [] ∧ ∀ c ∈ w, isPySpace c = false) →
    ∀ c, (joinWords ws).getLast? = some c → isPySpace c = false := by
  intro ws
  induction ws with
  | nil => intro _ c hc; simp [joinWords] at hc
  | cons w ws ih =>
    intro h c hc
    cases ws with
    | nil =>
      have hw := h w (List.mem_cons_self w [])
      have hc2 : c ∈ w.getLast? := hc
      obtain ⟨hne, hlast⟩ := List.mem_getLast?_eq_getLast hc2
      rw [hlast]
      exact hw.2 _ (List.getLast_mem hne)
    | cons w2 ws2 =>
      have hstep : joinWords (w :: w2 :: ws2) = w ++ ' ' :: joinWords (w2 :: ws2) := rfl
      rw [hstep, List.getLast?_append_of_ne_nil w (by simp)] at hc
      have hw2 := h w2 (List.mem_cons_of_mem w (List.mem_cons_self w2 ws2))
      have hne : joinWords (w2 :: ws2) ≠ [] := joinWords_ne_nil w2 ws2 hw2.1
      cases hshape : joinWords (w2 :: ws2) with
      | nil => exact absurd hshape hne
      | cons d ds =>
        rw [hshape, List.getLast?_cons_cons] at hc
        apply ih (fun u hu => h u (List.mem_cons_of_mem w hu)) c
        rw [hshape]
        exact hc

theorem joinWords_chars : ∀ (ws : List (List Char)),
    (∀ w ∈ ws, ∀ c ∈ w, isPySpace c = false) →
    ∀ c ∈ joinWords ws, isPySpace c = false ∨ c = ' ' := by
  intro ws
  induction ws with
  | nil => intro _ c hc; simp [joinWords] at hc
  | cons w ws ih =>
    intro h c hc
    cases ws with
    | nil => exact Or.inl (h w (List.mem_cons_self w []) c hc)
    | cons w2 ws2 =>
      have hstep : joinWords (w :: w2 :: ws2) = w ++ ' ' :: joinWords (w2 :: ws2) := rfl
      rw [hstep] at hc
      rcases List.mem_append.mp hc with hcw | hcr
      · exact Or.inl (h w (List.mem_cons_self w (w2 :: ws2)) c hcw)
      · rcases List.mem_cons.mp hcr with hsp | hcj
        · exact Or.inr hsp
        · exact ih (fun u hu => h u (List.mem_cons_of_mem w hu)) c hcj

theorem isCollapsedStr_collapseWs (s : String) :
    isCollapsedStr (collapseWs s) = true := by
  have hwords : ∀ w ∈ pyWords s, w ≠ [] ∧ ∀ c ∈ w, isPySpace c = false :=
    pyWordsAux_words s.data [] (by intro c hc; simp at hc)
  have hdata : (collapseWs s).data = joinWords (pyWords s) := rfl
  rw [isCollapsedStr, hdata]
  simp only [Bool.and_eq_true]
  refine ⟨⟨⟨?_, ?_⟩, ?_⟩, ?_⟩
  · rw [List.all_eq_true]
    intro c hc
    rcases joinWords_chars (pyWords s) (fun w hw => (hwords w hw).2) c hc with h | h
    · simp [h]
    · simp [h]
  · exact noAdjSpace_joinWords (pyWords s) hwords
  · cases hshape : joinWords (pyWords s) with
    | nil => rfl
    | cons c rest =>
      cases hp : pyWords s with
      | nil =>
        rw [hp] at hshape
        simp [joinWords] at hshape
      | cons w ws =>
        rw [hp] at hshape
        have hw := hwords w (by rw [hp]; exact List.mem_cons_self w ws)
        have hhead := joinWords_head_eq w ws hw.1
        rw [hshape] at hhead
        simp only [List.head?_cons] at hhead
        have hcw : c ∈ w := by
          cases w with
          | nil => exact absurd rfl hw.1
          | cons d ds =>
            simp only [List.head?_cons, Option.some.injEq] at hhead
            rw [hhead]
            exact List.mem_cons_self d ds
        simp [hw.2 c hcw]
  · cases hshape : (joinWords (pyWords s)).getLast? with
    | none => rfl
    | some c => simp [joinWords_getLast? (pyWords s) hwords c hshape]

theorem parseRows_texts_foldl (fns : List String) (idKey textKey : Option String) :
    ∀ (records : List (List String)) (acc : List Row),
      (records.foldl (parseRowsStep fns idKey textKey) acc).map Row.text =
        acc.map Row.text ++
          (records.map (fun r => collapseWs (resolveRawText fns textKey r))).filter
            (fun t => t ≠ "") := by
  intro records
  induction records with
  | nil => intro acc; simp
  | cons r rest ih =>
    intro acc
    rw [List.foldl_cons, ih (parseRowsStep fns idKey textKey acc r), List.map_cons,
      List.filter_cons]
    have hstep : parseRowsStep fns idKey textKey acc r =
        if collapseWs (resolveRawText fns textKey r) = "" then acc
        else acc ++ [Row.mk (pyOrD (rowGetOpt fns r idKey) (toString (acc.length + 1)))
          (collapseWs (resolveRawText fns textKey r))] := rfl
    by_cases htx : collapseWs (resolveRawText fns textKey r) = ""
    · rw [hstep, if_pos htx, htx]
      simp
    · rw [hstep, if_neg htx]
      simp [htx]

/-- **C7** — Row text normalization: the accepted rows' texts are exactly the
whitespace-collapsed resolved source values that are non-empty, in original
file order (rows whose collapsed text is empty are dropped), and every
accepted row's text is non-empty and in collapsed form (whitespace runs
reduced to a single space, no leading or trailing whitespace). -/
theorem claim_C7_text_normalization (fieldnames : List String)
    (idKey textKey : Option String) (records : List (List String)) :
    (parseRows fieldnames idKey textKey records).map Row.text =
      (records.map (fun r => collapseWs (resolveRawText fieldnames textKey r))).filter
        (fun t => t ≠ "") ∧
    ∀ r ∈ parseRows fieldnames idKey textKey records,
      r.text ≠ "" ∧ isCollapsedStr r.text = true := by
  have hmap := parseRows_texts_foldl fieldnames idKey textKey records []
  simp only [List.map_nil, List.nil_append] at hmap
  constructor
  · rw [parseRows]
    exact hmap
  · intro r hr
    have htext : r.text ∈ (parseRows fieldnames idKey textKey records).map Row.text :=
      List.mem_map_of_mem Row.text hr
    rw [parseRows, hmap] at htext
    have hfil := List.mem_filter.mp htext
    have hne : r.text ≠ "" := by simpa using hfil.2
    refine ⟨hne, ?_⟩
    obtain ⟨rec, _, hrec⟩ := List.mem_map.mp hfil.1
    rw [← hrec]
    exact isCollapsedStr_collapseWs (resolveRawText fieldnames textKey rec)

/-! ## Delimiter-detection claims -/

/-- The delimiter-detection rule as the spec's words state it (claim C6):
pick the first candidate of `[',', ';', '\t', '|']`, in that order, for which
splitting the first line yields more than one field; fall back to `','`.
Stated for comparison with `detectDelim`, the rule the source implements. -/
def specDetectDelim (line : String) : Char :=
  match delimCandidates.find? (fun c => 1 < (splitOnChar c line).length) with
  | some c => c
  | none => ','

theorem filter_strContains_comma (line : String) :
    (delimCandidates.filter (strContains line)).contains ',' = strContains line ',' := by
  cases hc : strContains line ',' with
  | true =>
    have : ',' ∈ delimCandidates.filter (strContains line) := by
      rw [List.mem_filter]
      exact ⟨by simp [delimCandidates], hc⟩
    simpa using this
  | false =>
    rw [Bool.eq_false_iff]
    intro hmem
    have := (List.mem_filter.mp (by simpa using hmem)).2
    rw [hc] at this
    exact Bool.false_ne_true this

theorem filter_strContains_tab (line : String) :
    (delimCandidates.filter (strContains line)).contains '\t' = strContains line '\t' := by
  cases hc : strContains line '\t' with
  | true =>
    have : '\t' ∈ delimCandidates.filter (strContains line) := by
      rw [List.mem_filter]
      exact ⟨by simp [delimCandidates], hc⟩
    simpa using this
  | false =>
    rw [Bool.eq_false_iff]
    intro hmem
    have := (List.mem_filter.mp (by simpa using hmem)).2
    rw [hc] at this
    exact Bool.false_ne_true this

theorem detectDelim_multi (line : String)
    (h2 : 2 ≤ (delimCandidates.filter (strContains line)).length) :
    detectDelim line =
      (if strContains line ',' then ','
        else if strContains line '\t' then '\t' else ';') := by
  have hcomma := filter_strContains_comma line
  have htab := filter_strContains_tab line
  rw [detectDelim]
  cases hp : delimCandidates.filter (strContains line) with
  | nil => rw [hp] at h2; simp at h2
  | cons a rest =>
    cases rest with
    | nil => rw [hp] at h2; simp at h2
    | cons b rest2 =>
      rw [hp] at hcomma htab
      show (if (a :: b :: rest2).contains ',' then ','
        else if (a :: b :: rest2).contains '\t' then '\t' else ';') = _
      rw [hcomma, htab]

/-- **C6, counterexample** — on the header line `"a;b\tc"` the spec's
first-candidate-that-splits rule yields `';'`, but the source's
Sniffer-based detection yields `'\t'` (the Sniffer prefers `','` then tab
then `';'` when several candidates occur in the line), so the claim's
general rule is false of the code. -/
theorem claim_C6_counterexample :
    specDetectDelim "a;b\tc" = ';' ∧ detectDelim "a;b\tc" = '\t' ∧
      detectDelim "a;b\tc" ≠ specDetectDelim "a;b\tc" := by
  refine ⟨by decide, by decide, by decide⟩

/-- **C6, amended** — Delimiter detection inspects only the first line
against the candidate set `{',', ';', tab, '|'}`: when no candidate occurs
in the line the fallback is `','`; when exactly one occurs it is chosen;
when several occur the Sniffer's preference order `','`, tab, `';'` decides.
In particular `"a;b;c"` yields `';'`, `"a,b,c"` yields `','`, and a header
containing no candidate yields `','`. -/
theorem claim_C6_delimiter_detection :
    (∀ line : String, delimCandidates.filter (strContains line) = [] →
      detectDelim line = ',') ∧
    (∀ (line : String) (c : Char),
      delimCandidates.filter (strContains line) = [c] → detectDelim line = c) ∧
    (∀ line : String, 2 ≤ (delimCandidates.filter (strContains line)).length →
      detectDelim line =
        (if strContains line ',' then ','
          else if strContains line '\t' then '\t' else ';')) ∧
    detectDelim "a;b;c" = ';' ∧ detectDelim "a,b,c" = ',' ∧
      detectDelim "abc" = ',' := by
  refine ⟨?_, ?_, detectDelim_multi, by decide, by decide, by decide⟩
  · intro line hline
    rw [detectDelim, hline]
  · intro line c hline
    rw [detectDelim, hline]

/-- Witness for C6 (amended): the multi-candidate case at `"a;b\tc"` and the
single-candidate case at `"a;b;c"`. -/
theorem claim_C6_delimiter_detection_witness :
    (2 ≤ (delimCandidates.filter (strContains "a;b\tc")).length ∧
      detectDelim "a;b\tc" =
        (if strContains "a;b\tc" ',' then ','
          else if strContains "a;b\tc" '\t' then '\t' else ';')) ∧
    (delimCandidates.filter (strContains "a;b;c") = [';'] ∧
      detectDelim "a;b;c" = ';') :=
  ⟨⟨by decide, claim_C6_delimiter_detection.2.2.1 "a;b\tc" (by decide)⟩,
    ⟨by decide, claim_C6_delimiter_detection.2.1 "a;b;c" ';' (by decide)⟩⟩

/-! ## Lowercasing lemmas -/

theorem char_toNat_ofNat (n : Nat) (h : n.isValidChar) :
    (Char.ofNat n).toNat = n := by
  rw [Char.ofNat, dif_pos h]
  rfl

theorem char_toLower_of_range (c : Char) (h : 65 ≤ c.toNat ∧ c.toNat ≤ 90) :
    c.toLower = Char.ofNat (c.toNat + 32) := by
  rw [Char.toLower]
  exact if_pos h

theorem char_toLower_of_not_range (c : Char) (h : ¬(65 ≤ c.toNat ∧ c.toNat ≤ 90)) :
    c.toLower = c := by
  rw [Char.toLower]
  exact if_neg h

theorem char_toLower_toLower (c : Char) : c.toLower.toLower = c.toLower := by
  by_cases h : 65 ≤ c.toNat ∧ c.toNat ≤ 90
  · rw [char_toLower_of_range c h]
    apply char_toLower_of_not_range
    rw [char_toNat_ofNat (c.toNat + 32) (Or.inl (by omega))]
    omega
  · rw [char_toLower_of_not_range c h, char_toLower_of_not_range c h]

theorem pyLower_pyLower (s : String) : pyLower (pyLower s) = pyLower s := by
  rw [pyLower, pyLower, List.map_map]
  congr 1
  apply List.map_congr_left
  intro c _
  exact char_toLower_toLower c

/-- **C4** — Retry policy, as the code actually behaves (the claim describes
the intended policy; the code contradicts it): urllib3's `Retry.is_retry`
consults its default allowed-method set `{HEAD, GET, PUT, DELETE, OPTIONS,
TRACE}` before `status_forcelist`, and the dispatch calls are `POST`, so a
retryable status such as 503 is never retried — the response is returned,
`raise_for_status` raises, and the batch fails after a single attempt even
when every later attempt would succeed.  Connection-level errors are
retried, and there `Retry(total=4)` allows the initial attempt plus 4
retries — 5 attempts, not the claimed 4 — exhaustion ending in a Failure
whose reason references the final error. -/
theorem claim_C4_retry_policy_bug :
    isRetryStatus "POST" 503 = false ∧
    (∀ preds : List RespEntry,
      sessionPost (fun i => if i = 0 then AttemptOutcome.response 503 []
        else AttemptOutcome.response 200 preds) =
        Except.error ("HTTP " ++ toString 503 ++ " error")) ∧
    (∀ preds : List RespEntry,
      sessionPost (fun i => if i < 4 then AttemptOutcome.connError "refused"
        else AttemptOutcome.response 200 preds) = Except.ok preds) ∧
    sessionPost (fun _ => AttemptOutcome.connError "refused") =
      Except.error ("max retries exceeded: " ++ "refused") :=
  ⟨by decide, fun _ => rfl, fun _ => rfl, rfl⟩

/-- **C9** — `/predict` response alignment by truncating zip: the response
has `min (number of items) (number of model outputs)` entries, and the
`k`-th entry echoes the `k`-th item's id and text verbatim with the `k`-th
model output's lowercased label (default `"neutral"`), score (default `0`)
and the shared timestamp attached; surplus items are silently dropped. -/
theorem claim_C9_truncating_zip (model : List String → List ModelOut)
    (ts : String) (items : List Item) :
    (predict model ts items).length =
      min items.length (model (items.map Item.text)).length ∧
    ∀ (k : Nat) (item : Item) (out : ModelOut),
      items.get? k = some item →
      (model (items.map Item.text)).get? k = some out →
      (predict model ts items).get? k =
        some { id := item.id, text := item.text,
               sentiment_label := pyLower (out.label.getD "NEUTRAL"),
               sentiment_score := out.score.getD 0,
               processed_at := ts } := by
  constructor
  · rw [predict, predict_texts]
    simp only [List.length_map, List.length_zip]
    omega
  · intro k item out hitem hout
    have htext : (items.map Item.text).get? k = some item.text := by
      rw [List.get?_map, hitem]
      rfl
    have hpred : (predict_texts model ts (items.map Item.text)).get? k =
        some { text := item.text,
               sentiment_label := pyLower (out.label.getD "NEUTRAL"),
               sentiment_score := out.score.getD 0,
               processed_at := ts } := by
      rw [predict_texts]
      have hz : ((items.map Item.text).zip (model (items.map Item.text))).get? k =
          some (item.text, out) :=
        (List.get?_zip_eq_some _ _ _ _).mpr ⟨htext, hout⟩
      rw [List.get?_map, hz]
      rfl
    rw [predict]
    have hz2 : (items.zip (predict_texts model ts (items.map Item.text))).get? k =
        some (item,
          { text := item.text,
            sentiment_label := pyLower (out.label.getD "NEUTRAL"),
            sentiment_score := out.score.getD 0,
            processed_at := ts }) :=
      (List.get?_zip_eq_some _ _ _ _).mpr ⟨hitem, hpred⟩
    rw [List.get?_map, hz2]
    rfl

/-- Witness for C9: two items, one model output — the response is truncated
to one entry echoing the first item. -/
theorem claim_C9_truncating_zip_witness :
    (([⟨"1", "hi"⟩, ⟨"2", "yo"⟩] : List Item).get? 0 = some ⟨"1", "hi"⟩) ∧
    ((fun _ : List String => [ModelOut.mk (some "POSITIVE") (some 1)])
      (([⟨"1", "hi"⟩, ⟨"2", "yo"⟩] : List Item).map Item.text)).get? 0 =
        some (ModelOut.mk (some "POSITIVE") (some 1)) ∧
    (predict (fun _ => [ModelOut.mk (some "POSITIVE") (some 1)]) "T"
        [⟨"1", "hi"⟩, ⟨"2", "yo"⟩]).get? 0 =
      some { id := "1", text := "hi",
             sentiment_label := pyLower ((some "POSITIVE").getD "NEUTRAL"),
             sentiment_score := (some (1 : ℚ)).getD 0,
             processed_at := "T" } :=
  ⟨by decide, by decide,
    (claim_C9_truncating_zip (fun _ => [ModelOut.mk (some "POSITIVE") (some 1)])
      "T" [⟨"1", "hi"⟩, ⟨"2", "yo"⟩]).2 0 ⟨"1", "hi"⟩
      (ModelOut.mk (some "POSITIVE") (some 1)) (by decide) (by decide)⟩

/-- **C10** — Single timestamp per inference call, lowercase labels and
per-field defaults: every prediction of one `predict_texts` call carries the
identical `processed_at` timestamp (taken once, before the loop) and a label
that is lowercase (lowercasing it again changes nothing); the `k`-th result
pairs the `k`-th text with the `k`-th model output; a missing label defaults
to `"neutral"` and a missing score to `0`. -/
theorem claim_C10_single_timestamp (model : List String → List ModelOut)
    (ts : String) (texts : List String) :
    (∀ p ∈ predict_texts model ts texts,
      p.processed_at = ts ∧ pyLower p.sentiment_label = p.sentiment_label) ∧
    (∀ (k : Nat) (t : String) (out : ModelOut),
      texts.get? k = some t → (model texts).get? k = some out →
      (predict_texts model ts texts).get? k =
        some { text := t,
               sentiment_label := pyLower (out.label.getD "NEUTRAL"),
               sentiment_score := out.score.getD 0,
               processed_at := ts }) ∧
    (∀ out : ModelOut, out.label = none →
      pyLower (out.label.getD "NEUTRAL") = "neutral") ∧
    (∀ out : ModelOut, out.score = none → out.score.getD 0 = 0) := by
  refine ⟨?_, ?_, ?_, ?_⟩
  · intro p hp
    rw [predict_texts] at hp
    simp only [List.mem_map] at hp
    obtain ⟨q, _, hq⟩ := hp
    refine ⟨by rw [← hq], ?_⟩
    rw [← hq]
    exact pyLower_pyLower _
  · intro k t out ht hout
    rw [predict_texts]
    have hz : (texts.zip (model texts)).get? k = some (t, out) :=
      (List.get?_zip_eq_some _ _ _ _).mpr ⟨ht, hout⟩
    rw [List.get?_map, hz]
    rfl
  · intro out h
    rw [h]
    rfl
  · intro out h
    rw [h]
    rfl

/-- Witness for C10: a one-output call with a missing label and a missing
score — the entry gets label `"neutral"`, score `0`, timestamp `"T"`. -/
theorem claim_C10_single_timestamp_witness :
    (["hi"].get? 0 = some "hi") ∧
    ((fun _ : List String => [ModelOut.mk none none]) ["hi"]).get? 0 =
      some (ModelOut.mk none none) ∧
    (predict_texts (fun _ => [ModelOut.mk none none]) "T" ["hi"]).get? 0 =
      some { text := "hi",
             sentiment_label := pyLower ((Option.none).getD "NEUTRAL"),
             sentiment_score := (Option.none).getD (0 : ℚ),
             processed_at := "T" } :=
  ⟨by decide, by decide,
    (claim_C10_single_timestamp (fun _ => [ModelOut.mk none none]) "T" ["hi"]).2.1
      0 "hi" (ModelOut.mk none none) (by decide) (by decide)⟩

end AzureMLServerless
